import Mathlib

/-!
Verification development for the offline-resilient delivery subsystem of the
phoenix-desktop repository: the durable queue (src/data_cache.py) and the
delivery orchestrator (src/api_client.py).  Python code is shallowly embedded
as pure Lean functions; wall-clock readings and network outcomes are passed in
explicitly, and exceptions are explicit result values.
-/

namespace PhoenixSpec

/-! ## JSON payload model

The cache stores the payload dictionary as the text produced by json.dumps and
reads it back with json.loads.  We model the payload values actually stored by
the program: ordered string-keyed mappings whose values are strings, integers,
booleans or null (numeric timestamps are modelled as integers).  String
escaping is modelled for the quote and backslash characters; other characters
are carried through verbatim.  Both directions are executable.
-/

def quoteC : Char := Char.ofNat 34

def bslashC : Char := Char.ofNat 92

def lbraceC : Char := Char.ofNat 123

def rbraceC : Char := Char.ofNat 125

inductive JVal where
  | str (s : String)
  | int (n : Int)
  | bool (b : Bool)
  | null
deriving DecidableEq

abbrev JObj := List (String × JVal)

def escChar (c : Char) : List Char :=
  if c = quoteC ∨ c = bslashC then [bslashC, c] else [c]

def encStrChars : List Char → List Char
  | [] => []
  | c :: cs => escChar c ++ encStrChars cs

def digitsRevN : Nat → Nat → List Nat
  | 0, _ => []
  | fuel + 1, n => if n = 0 then [] else n % 10 :: digitsRevN fuel (n / 10)

def natChars (n : Nat) : List Char :=
  if n = 0 then ['0'] else (digitsRevN n n).reverse.map Nat.digitChar

def intChars : Int → List Char
  | .ofNat n => natChars n
  | .negSucc m => '-' :: natChars (m + 1)

def encVal : JVal → List Char
  | .str s => quoteC :: (encStrChars s.data ++ [quoteC])
  | .int n => intChars n
  | .bool true => ['t', 'r', 'u', 'e']
  | .bool false => ['f', 'a', 'l', 's', 'e']
  | .null => ['n', 'u', 'l', 'l']

def encPair (p : String × JVal) : List Char :=
  quoteC :: (encStrChars p.1.data ++ (quoteC :: ':' :: ' ' :: encVal p.2))

def encPairsRest : JObj → List Char
  | [] => []
  | p :: ps => ',' :: ' ' :: (encPair p ++ encPairsRest ps)

def encObj : JObj → List Char
  | [] => [lbraceC, rbraceC]
  | p :: ps => lbraceC :: (encPair p ++ (encPairsRest ps ++ [rbraceC]))

/-- Model of json.dumps restricted to the object shapes the cache stores. -/
def jsonDumps (o : JObj) : List Char := encObj o

def parseStr : List Char → Option (List Char × List Char)
  | [] => none
  | c :: rest =>
    if c = bslashC then
      match rest with
      | [] => none
      | d :: rest2 => (parseStr rest2).map (fun sr => (d :: sr.1, sr.2))
    else if c = quoteC then some ([], rest)
    else (parseStr rest).map (fun sr => (c :: sr.1, sr.2))

def digitVal (c : Char) : Nat := c.toNat - 48

def digitsVal (ds : List Char) : Nat := ds.foldl (fun a c => 10 * a + digitVal c) 0

def parseNat (l : List Char) : Option (Nat × List Char) :=
  if l.takeWhile Char.isDigit = [] then none
  else some (digitsVal (l.takeWhile Char.isDigit), l.dropWhile Char.isDigit)

def stripPre : List Char → List Char → Option (List Char)
  | [], l => some l
  | _ :: _, [] => none
  | p :: ps, c :: cs => if c = p then stripPre ps cs else none

def parseVal : List Char → Option (JVal × List Char)
  | [] => none
  | c :: rest =>
    if c = quoteC then (parseStr rest).map (fun sr => (JVal.str ⟨sr.1⟩, sr.2))
    else if c = 't' then (stripPre ['r', 'u', 'e'] rest).map (fun r => (JVal.bool true, r))
    else if c = 'f' then (stripPre ['a', 'l', 's', 'e'] rest).map (fun r => (JVal.bool false, r))
    else if c = 'n' then (stripPre ['u', 'l', 'l'] rest).map (fun r => (JVal.null, r))
    else if c = '-' then (parseNat rest).map (fun nr => (JVal.int (-(nr.1 : Int)), nr.2))
    else (parseNat (c :: rest)).map (fun nr => (JVal.int (nr.1 : Int), nr.2))

def parsePair : List Char → Option ((String × JVal) × List Char)
  | [] => none
  | c :: rest =>
    if c = quoteC then
      match parseStr rest with
      | some (k, r1) =>
        match r1 with
        | a :: b :: r2 =>
          if a = ':' ∧ b = ' ' then
            (parseVal r2).map (fun vr => ((⟨k⟩, vr.1), vr.2))
          else none
        | _ => none
      | none => none
    else none

def parsePairsRest : Nat → List Char → Option (JObj × List Char)
  | 0, _ => none
  | _ + 1, [] => none
  | fuel + 1, c :: rest =>
    if c = rbraceC then some ([], rest)
    else if c = ',' then
      match rest with
      | [] => none
      | sp :: r1 =>
        if sp = ' ' then
          match parsePair r1 with
          | some (p, r2) =>
            match parsePairsRest fuel r2 with
            | some (ps, r3) => some (p :: ps, r3)
            | none => none
          | none => none
        else none
    else none

def parseObj : List Char → Option (JObj × List Char)
  | [] => none
  | c :: rest =>
    if c = lbraceC then
      match rest with
      | [] => none
      | d :: r0 =>
        if d = rbraceC then some ([], r0)
        else
          match parsePair rest with
          | some (p, r1) =>
            match parsePairsRest (r1.length + 1) r1 with
            | some (ps, r2) => some (p :: ps, r2)
            | none => none
          | none => none
    else none

/-- Model of json.loads on stored payload text; none models JSONDecodeError. -/
def jsonLoads (l : List Char) : Option JObj :=
  match parseObj l with
  | some (o, []) => some o
  | _ => none

/-! ### Round-trip of the payload codec -/

theorem parseStr_enc (s rest : List Char) :
    parseStr (encStrChars s ++ quoteC :: rest) = some (s, rest) := by
  induction s with
  | nil =>
    show parseStr (quoteC :: rest) = some ([], rest)
    rw [parseStr.eq_def]
    simp [(by decide : ¬ quoteC = bslashC)]
  | cons c cs ih =>
    by_cases hc : c = quoteC ∨ c = bslashC
    · have he : escChar c = [bslashC, c] := by rw [escChar, if_pos hc]
      simp only [encStrChars, he, List.cons_append, List.append_assoc]
      rw [parseStr.eq_def]
      simp [ih]
    · push_neg at hc
      have he : escChar c = [c] := by rw [escChar, if_neg (not_or.mpr hc)]
      simp only [encStrChars, he, List.cons_append, List.append_assoc]
      rw [parseStr.eq_def]
      simp [hc.1, hc.2, ih]

def valLE : List Nat → Nat
  | [] => 0
  | d :: ds => d + 10 * valLE ds

theorem valLE_digitsRevN : ∀ fuel n, n ≤ fuel → valLE (digitsRevN fuel n) = n := by
  intro fuel
  induction fuel with
  | zero => intro n h; interval_cases n; rfl
  | succ f ih =>
    intro n h
    by_cases hn : n = 0
    · simp [digitsRevN, hn, valLE]
    · rw [digitsRevN, if_neg hn, valLE, ih (n / 10) (by omega)]
      omega

theorem digitsRevN_lt : ∀ fuel n d, d ∈ digitsRevN fuel n → d < 10 := by
  intro fuel
  induction fuel with
  | zero => intro n d h; simp [digitsRevN] at h
  | succ f ih =>
    intro n d h
    by_cases hn : n = 0
    · simp [digitsRevN, hn] at h
    · rw [digitsRevN, if_neg hn] at h
      rcases List.mem_cons.mp h with h1 | h2
      · omega
      · exact ih _ _ h2

theorem digitChar_facts (d : Nat) (h : d < 10) :
    (Nat.digitChar d).isDigit = true ∧ digitVal (Nat.digitChar d) = d ∧
    Nat.digitChar d ≠ quoteC ∧ Nat.digitChar d ≠ 't' ∧ Nat.digitChar d ≠ 'f' ∧
    Nat.digitChar d ≠ 'n' ∧ Nat.digitChar d ≠ '-' ∧ Nat.digitChar d ≠ bslashC := by
  interval_cases d <;> decide

theorem natChars_mem_facts (n : Nat) :
    ∀ c ∈ natChars n, c.isDigit = true ∧ c ≠ quoteC ∧ c ≠ 't' ∧ c ≠ 'f' ∧
      c ≠ 'n' ∧ c ≠ '-' := by
  intro c hc
  unfold natChars at hc
  by_cases hn : n = 0
  · rw [if_pos hn] at hc
    simp only [List.mem_singleton] at hc
    subst hc; refine ⟨by decide, by decide, by decide, by decide, by decide, by decide⟩
  · rw [if_neg hn] at hc
    rcases List.mem_map.mp hc with ⟨d, hd, rfl⟩
    have hd10 : d < 10 := digitsRevN_lt n n d (List.mem_reverse.mp hd)
    obtain ⟨h1, _, h3, h4, h5, h6, h7, _⟩ := digitChar_facts d hd10
    exact ⟨h1, h3, h4, h5, h6, h7⟩

theorem natChars_ne_nil (n : Nat) : natChars n ≠ [] := by
  unfold natChars
  by_cases hn : n = 0
  · simp [hn]
  · rw [if_neg hn]
    obtain ⟨m, rfl⟩ := Nat.exists_eq_succ_of_ne_zero hn
    rw [digitsRevN, if_neg hn]
    simp

theorem foldl_digits_rev (l : List Nat) (hl : ∀ d ∈ l, d < 10) :
    ∀ a, (l.reverse.map Nat.digitChar).foldl (fun x c => 10 * x + digitVal c) a
      = a * 10 ^ l.length + valLE l := by
  induction l with
  | nil => intro a; simp [valLE]
  | cons d ds ih =>
    intro a
    have hds : ∀ e ∈ ds, e < 10 := fun e he => hl e (List.mem_cons_of_mem d he)
    have hd : d < 10 := hl d (List.mem_cons_self d ds)
    rw [List.reverse_cons, List.map_append, List.foldl_append, ih hds a]
    simp only [List.map_cons, List.map_nil, List.foldl_cons, List.foldl_nil,
      (digitChar_facts d hd).2.1, valLE, List.length_cons, pow_succ]
    ring

theorem digitsVal_natChars (n : Nat) : digitsVal (natChars n) = n := by
  unfold natChars
  by_cases hn : n = 0
  · rw [if_pos hn, hn]; decide
  · rw [if_neg hn]
    unfold digitsVal
    rw [foldl_digits_rev (digitsRevN n n) (digitsRevN_lt n n) 0,
      valLE_digitsRevN n n (Nat.le_refl n)]
    omega

theorem parseNat_enc (n : Nat) (rest : List Char)
    (hrest : ∀ c, rest.head? = some c → c.isDigit = false) :
    parseNat (natChars n ++ rest) = some (n, rest) := by
  have hall : ∀ c ∈ natChars n, Char.isDigit c = true :=
    fun c hc => (natChars_mem_facts n c hc).1
  have htw0 : rest.takeWhile Char.isDigit = [] := by
    cases rest with
    | nil => rfl
    | cons r rs => rw [List.takeWhile_cons_of_neg]; simp [hrest r rfl]
  have hdw0 : rest.dropWhile Char.isDigit = rest := by
    cases rest with
    | nil => rfl
    | cons r rs => rw [List.dropWhile_cons_of_neg]; simp [hrest r rfl]
  have htw : (natChars n ++ rest).takeWhile Char.isDigit = natChars n := by
    rw [List.takeWhile_append_of_pos hall, htw0, List.append_nil]
  have hdw : (natChars n ++ rest).dropWhile Char.isDigit = rest := by
    rw [List.dropWhile_append_of_pos hall, hdw0]
  rw [parseNat, htw, hdw, if_neg (natChars_ne_nil n), digitsVal_natChars]

theorem stripPre_enc (p rest : List Char) : stripPre p (p ++ rest) = some rest := by
  induction p with
  | nil => rfl
  | cons c cs ih => simpa [stripPre] using ih

theorem parseVal_enc (v : JVal) (rest : List Char)
    (hrest : ∀ c, rest.head? = some c → c.isDigit = false) :
    parseVal (encVal v ++ rest) = some (v, rest) := by
  cases v with
  | str s =>
    obtain ⟨sd⟩ := s
    show parseVal (quoteC :: (encStrChars sd ++ [quoteC]) ++ rest) = _
    rw [List.cons_append, List.append_assoc, List.singleton_append]
    simp [parseVal, parseStr_enc]
  | int n =>
    cases n with
    | ofNat m =>
      show parseVal (natChars m ++ rest) = _
      obtain ⟨c0, cs0, hm⟩ := List.exists_cons_of_ne_nil (natChars_ne_nil m)
      obtain ⟨_, hq, ht, hf, hn, hneg⟩ :=
        natChars_mem_facts m c0 (by rw [hm]; exact List.mem_cons_self c0 cs0)
      rw [hm, List.cons_append]
      simp only [parseVal]
      rw [if_neg hq, if_neg ht, if_neg hf, if_neg hn, if_neg hneg,
        ← List.cons_append, ← hm, parseNat_enc m rest hrest]
      rfl
    | negSucc m =>
      show parseVal ('-' :: natChars (m + 1) ++ rest) = _
      rw [List.cons_append]
      simp [parseVal, (by decide : ¬ ('-' : Char) = quoteC),
        (by decide : ¬ ('-' : Char) = 't'), (by decide : ¬ ('-' : Char) = 'f'),
        (by decide : ¬ ('-' : Char) = 'n'), parseNat_enc (m + 1) rest hrest,
        Int.negSucc_eq]
  | bool b =>
    cases b with
    | true =>
      show parseVal ('t' :: ['r', 'u', 'e'] ++ rest) = _
      rw [List.cons_append]
      simp [parseVal, (by decide : ¬ ('t' : Char) = quoteC), stripPre]
    | false =>
      show parseVal ('f' :: ['a', 'l', 's', 'e'] ++ rest) = _
      rw [List.cons_append]
      simp [parseVal, (by decide : ¬ ('f' : Char) = quoteC),
        (by decide : ¬ ('f' : Char) = 't'), stripPre]
  | null =>
    show parseVal ('n' :: ['u', 'l', 'l'] ++ rest) = _
    rw [List.cons_append]
    simp [parseVal, (by decide : ¬ ('n' : Char) = quoteC),
      (by decide : ¬ ('n' : Char) = 't'), (by decide : ¬ ('n' : Char) = 'f'),
      stripPre]

theorem parsePair_enc (p : String × JVal) (rest : List Char)
    (hrest : ∀ c, rest.head? = some c → c.isDigit = false) :
    parsePair (encPair p ++ rest) = some (p, rest) := by
  obtain ⟨k, v⟩ := p
  obtain ⟨kd⟩ := k
  show parsePair (quoteC :: (encStrChars kd ++ (quoteC :: ':' :: ' ' :: encVal v)) ++ rest) = _
  rw [List.cons_append, List.append_assoc]
  simp only [List.cons_append]
  simp [parsePair, parseStr_enc kd (':' :: ' ' :: (encVal v ++ rest)),
    parseVal_enc v rest hrest]

theorem encPairsRest_head (ps : JObj) (rest : List Char) :
    ∀ c, (encPairsRest ps ++ rbraceC :: rest).head? = some c → c.isDigit = false := by
  intro c hc
  cases ps with
  | nil =>
    simp only [encPairsRest, List.nil_append, List.head?_cons, Option.some_inj] at hc
    subst hc; decide
  | cons p ps =>
    simp only [encPairsRest, List.cons_append, List.head?_cons, Option.some_inj] at hc
    subst hc; decide

theorem parsePairsRest_enc : ∀ (ps : JObj) (fuel : Nat) (rest : List Char),
    ps.length < fuel →
    parsePairsRest fuel (encPairsRest ps ++ rbraceC :: rest) = some (ps, rest) := by
  intro ps
  induction ps with
  | nil =>
    intro fuel rest h
    cases fuel with
    | zero => omega
    | succ f =>
      show parsePairsRest (f + 1) (rbraceC :: rest) = _
      rw [parsePairsRest.eq_def]
      simp
  | cons p ps ih =>
    intro fuel rest h
    cases fuel with
    | zero => simp at h
    | succ f =>
      show parsePairsRest (f + 1)
        ((',' :: ' ' :: (encPair p ++ encPairsRest ps)) ++ rbraceC :: rest) = _
      simp only [List.cons_append, List.append_assoc]
      rw [parsePairsRest.eq_def]
      simp [(by decide : ¬ (',' : Char) = rbraceC),
        parsePair_enc p (encPairsRest ps ++ rbraceC :: rest) (encPairsRest_head ps rest),
        ih f rest (by simp only [List.length_cons] at h; omega)]

theorem length_encPairsRest (ps : JObj) : ps.length ≤ (encPairsRest ps).length := by
  induction ps with
  | nil => simp [encPairsRest]
  | cons p ps ih =>
    simp only [encPairsRest, List.length_cons, List.cons_append, List.length_append]
    omega

theorem parseObj_enc (o : JObj) : parseObj (encObj o) = some (o, []) := by
  cases o with
  | nil =>
    show parseObj [lbraceC, rbraceC] = _
    simp [parseObj]
  | cons p ps =>
    obtain ⟨k, v⟩ := p
    show parseObj (lbraceC :: (encPair (k, v) ++ (encPairsRest ps ++ [rbraceC]))) = _
    have hp := parsePair_enc (k, v) (encPairsRest ps ++ rbraceC :: []) (encPairsRest_head ps [])
    have hq : encPair (k, v)
        = quoteC :: (encStrChars k.data ++ (quoteC :: ':' :: ' ' :: encVal v)) := rfl
    rw [hq] at hp ⊢
    simp only [List.cons_append, List.append_assoc] at hp ⊢
    have hlen : ps.length < (encPairsRest ps ++ rbraceC :: []).length + 1 := by
      have := length_encPairsRest ps
      simp only [List.length_append, List.length_cons, List.length_nil]
      omega
    have hpr := parsePairsRest_enc ps ((encPairsRest ps ++ rbraceC :: []).length + 1) [] hlen
    simp only [List.length_append, List.length_cons, List.length_nil] at hpr
    simp [parseObj, (by decide : ¬ quoteC = rbraceC), hp, hpr]

/-- The stored payload text always decodes back to the exact payload object. -/
theorem jsonLoads_jsonDumps (o : JObj) : jsonLoads (jsonDumps o) = some o := by
  rw [jsonDumps, jsonLoads, parseObj_enc]

/-! ## Durable queue model (DataCache, src/data_cache.py)

One row of the pending_uploads table.  The id column is the AUTOINCREMENT
primary key: store-assigned, strictly increasing, never reused.  The data
column holds the json.dumps text of the payload; file_data is the nullable
blob.  Timestamps (time.time at enqueue) are modelled as integers and passed
in explicitly by the caller of add_item.
-/

structure Row where
  id : Nat
  timestamp : Int
  ty : String
  data : List Char
  file_data : Option (List Nat)
deriving DecidableEq

structure CacheState where
  nextId : Nat
  rows : List Row
deriving DecidableEq

/-- Fresh database: empty table, AUTOINCREMENT counter at 1. -/
def cacheInit : CacheState := ⟨1, []⟩

/-- Model of DataCache.add_item (src/data_cache.py lines 50 to 74): INSERT of
(timestamp, type, json.dumps(data), file_data); the id is assigned by
AUTOINCREMENT.  Storage-layer errors are outside the model. -/
def add_item (now : Int) (item_type : String) (data : JObj)
    (file_data : Option (List Nat)) (s : CacheState) : CacheState :=
  ⟨s.nextId + 1, s.rows ++ [⟨s.nextId, now, item_type, jsonDumps data, file_data⟩]⟩

abbrev PendingItem := Nat × String × JObj × Option (List Nat)

def tsLE (a b : Row) : Prop := a.timestamp ≤ b.timestamp

instance : DecidableRel tsLE :=
  fun a b => inferInstanceAs (Decidable (a.timestamp ≤ b.timestamp))

/-- Decoding of one fetched row in the get_pending_items loop: json.loads on
the data column; none models the skipped JSONDecodeError case. -/
def decodeRow (r : Row) : Option PendingItem :=
  (jsonLoads r.data).map (fun o => (r.id, r.ty, o, r.file_data))

/-- Model of DataCache.get_pending_items (src/data_cache.py lines 76 to 108):
SELECT id, type, data, file_data FROM pending_uploads ORDER BY timestamp ASC
LIMIT ?, then per-row json.loads with corrupt rows skipped.  The SQL sort is
modelled as a stable sort by timestamp of the insertion-ordered rows.  The
read is non-destructive: the cache state is not changed. -/
def get_pending_items (limit : Nat) (s : CacheState) : List PendingItem :=
  ((s.rows.insertionSort tsLE).take limit).filterMap decodeRow

/-- Model of DataCache.remove_item (src/data_cache.py lines 110 to 128):
DELETE FROM pending_uploads WHERE id = ?; idempotent. -/
def remove_item (item_id : Nat) (s : CacheState) : CacheState :=
  ⟨s.nextId, s.rows.filter (fun r => r.id != item_id)⟩

/-- Model of DataCache.clear_cache (src/data_cache.py lines 130 to 145). -/
def clear_cache (s : CacheState) : CacheState := ⟨s.nextId, []⟩

/-- The count field of DataCache.get_stats (src/data_cache.py lines 147 to 166). -/
def cacheCount (s : CacheState) : Nat := s.rows.length

/-! ## Delivery orchestrator model (APIClient, src/api_client.py)

A live or replayed transport attempt either yields an HTTP response with a
status code, or fails at the connection/timeout level before any status code
is obtained (requests.RequestException other than HTTPError).
-/

inductive HttpResult where
  | response (status : Nat)
  | netError
deriving DecidableEq

/-- requests Response.raise_for_status raises HTTPError exactly for
400 <= status < 600. -/
def raisesFor (st : Nat) : Bool := decide (400 ≤ st) && decide (st < 600)

/-- An attempt counts as successful when a response is obtained and
raise_for_status does not raise. -/
def isOk : HttpResult → Bool
  | .response st => !raisesFor st
  | .netError => false

inductive Endpoint where
  | heartbeat
  | capture
deriving DecidableEq

/-- One outbound POST: which endpoint, and for replayed queue items the queued
row id (none for the live attempt of a fresh event). -/
structure Req where
  endpoint : Endpoint
  itemId : Option Nat
deriving DecidableEq

/-- In-memory orchestrator state: the process-local rate-limit clock value and
the durable queue.  last_capture_time starts at 0 (src/api_client.py line 41). -/
structure ClientState where
  lastCaptureTime : Int
  cache : CacheState
deriving DecidableEq

/-- min_capture_interval, src/api_client.py line 42. -/
def minCaptureInterval : Int := 30

def endpointOf (ty : String) : Endpoint :=
  if ty = "heartbeat" then .heartbeat else .capture

def mkReq (it : PendingItem) : Req := ⟨endpointOf it.2.1, some it.1⟩

def validTy (ty : String) : Bool := ty == "heartbeat" || ty == "screenshot"

/-- Model of the for-loop of APIClient.process_pending_uploads
(src/api_client.py lines 179 to 207).  The oracle gives the transport outcome
for the batch item at each position.  For a recognised item type the item is
POSTed: on success the row is removed and the loop continues, on any failure
the loop breaks at once.  A row with an unrecognised type makes no request but
is still removed (the unconditional remove_item after the if/elif chain).
Returns the cache after the pass and the requests made, in order. -/
def replayLoop (oracle : Nat → HttpResult) :
    List PendingItem → Nat → CacheState → CacheState × List Req
  | [], _, c => (c, [])
  | it :: rest, i, c =>
    if validTy it.2.1 then
      if isOk (oracle i) then
        let r := replayLoop oracle rest (i + 1) (remove_item it.1 c)
        (r.1, mkReq it :: r.2)
      else (c, [mkReq it])
    else
      replayLoop oracle rest (i + 1) (remove_item it.1 c)

/-- Model of APIClient.process_pending_uploads (src/api_client.py lines 171
to 207): dequeue a batch of at most 5 pending items and replay them. -/
def process_pending_uploads (oracle : Nat → HttpResult) (s : ClientState) :
    ClientState × List Req :=
  let r := replayLoop oracle (get_pending_items 5 s.cache) 0 s.cache
  ({ s with cache := r.1 }, r.2)

/-- What a send_heartbeat or upload_screenshot call does for its caller:
return normally (ok), return the queued/cached dictionary (cached), return the
rate-limited dictionary, return the 422 response body (resp422), or let an
HTTPError escape to the caller (raisedHttp). -/
inductive SendResult where
  | ok
  | cached
  | rateLimited (remaining : Int)
  | resp422
  | raisedHttp (status : Nat)
deriving DecidableEq

/-- The heartbeat payload dictionary (src/api_client.py lines 59 to 64). -/
def heartbeatPayload (now : Int) (app_name window_title : String)
    (is_idle : Bool) : JObj :=
  [("timestamp", .int now), ("app_name", .str app_name),
   ("window_title", .str window_title), ("is_idle", .bool is_idle)]

/-- Model of APIClient.send_heartbeat (src/api_client.py lines 47 to 93).
live is the outcome of the live POST; oracle feeds any replay pass.  On a 2xx
(or any non-4xx/5xx) response: replay runs, the response is returned.  On 401:
HTTPError propagates, nothing cached.  On 5xx: the payload is cached, then the
HTTPError propagates.  On other HTTP errors: HTTPError propagates, nothing
cached.  On a connection-level failure: the payload is cached and the cached
dictionary is returned.  The third component lists the POSTs made. -/
def send_heartbeat (now : Int) (app_name window_title : String) (is_idle : Bool)
    (live : HttpResult) (oracle : Nat → HttpResult) (s : ClientState) :
    SendResult × ClientState × List Req :=
  let payload := heartbeatPayload now app_name window_title is_idle
  match live with
  | .response st =>
    if raisesFor st then
      if st = 401 then (.raisedHttp 401, s, [⟨.heartbeat, none⟩])
      else if 500 ≤ st ∧ st < 600 then
        (.raisedHttp st,
          { s with cache := add_item now "heartbeat" payload none s.cache },
          [⟨.heartbeat, none⟩])
      else (.raisedHttp st, s, [⟨.heartbeat, none⟩])
    else
      let r := process_pending_uploads oracle s
      (.ok, r.1, ⟨.heartbeat, none⟩ :: r.2)
  | .netError =>
    (.cached, { s with cache := add_item now "heartbeat" payload none s.cache },
      [⟨.heartbeat, none⟩])

/-- Python dict assignment on the metadata dictionary: replace the value in
place if the key exists, otherwise append the pair. -/
def setKey (o : JObj) (k : String) (v : JVal) : JObj :=
  if o.any (fun p => p.1 == k) then
    o.map (fun p => if p.1 == k then (k, v) else p)
  else o ++ [(k, v)]

/-- The merged form-data dictionary of upload_screenshot
(src/api_client.py lines 117 to 119). -/
def screenshotData (now : Int) (device_id : String) (metadata : JObj) : JObj :=
  setKey (setKey metadata "device_id" (.str device_id)) "timestamp" (.int now)

/-- Model of APIClient.upload_screenshot (src/api_client.py lines 95 to 169).
Rate limiting happens before any transport call.  last_capture_time is
assigned on line 134, after session.post returns a response, so it is updated
whenever a status code was obtained but not on a connection-level failure.
Status handling: non-4xx/5xx response means success plus replay; 401 and 413
propagate HTTPError with nothing cached; 422 returns the response body; 5xx
caches the event then propagates HTTPError; other 4xx propagate; a
connection-level failure caches the event and returns the cached dictionary. -/
def upload_screenshot (now : Int) (device_id : String) (image_bytes : List Nat)
    (metadata : JObj) (live : HttpResult) (oracle : Nat → HttpResult)
    (s : ClientState) : SendResult × ClientState × List Req :=
  if now - s.lastCaptureTime < minCaptureInterval then
    (.rateLimited (minCaptureInterval - (now - s.lastCaptureTime)), s, [])
  else
    let data := screenshotData now device_id metadata
    match live with
    | .response st =>
      let s1 := { s with lastCaptureTime := now }
      if raisesFor st then
        if st = 401 then (.raisedHttp 401, s1, [⟨.capture, none⟩])
        else if st = 422 then (.resp422, s1, [⟨.capture, none⟩])
        else if st = 413 then (.raisedHttp 413, s1, [⟨.capture, none⟩])
        else if 500 ≤ st ∧ st < 600 then
          (.raisedHttp st,
            { s1 with cache := add_item now "screenshot" data (some image_bytes) s1.cache },
            [⟨.capture, none⟩])
        else (.raisedHttp st, s1, [⟨.capture, none⟩])
      else
        let r := process_pending_uploads oracle s1
        (.ok, r.1, ⟨.capture, none⟩ :: r.2)
    | .netError =>
      (.cached,
        { s with cache := add_item now "screenshot" data (some image_bytes) s.cache },
        [⟨.capture, none⟩])

/-! ### Branch equations for the two orchestrator operations -/

theorem hb_net_eq (now : Int) (a w : String) (idl : Bool) (oracle : Nat → HttpResult)
    (s : ClientState) :
    send_heartbeat now a w idl .netError oracle s
      = (.cached,
         { s with cache := add_item now "heartbeat" (heartbeatPayload now a w idl) none s.cache },
         [⟨.heartbeat, none⟩]) := rfl

theorem hb_accepted_eq (now : Int) (a w : String) (idl : Bool) (st : Nat)
    (oracle : Nat → HttpResult) (s : ClientState) (h : raisesFor st = false) :
    send_heartbeat now a w idl (.response st) oracle s
      = (.ok, (process_pending_uploads oracle s).1,
         Req.mk .heartbeat none :: (process_pending_uploads oracle s).2) := by
  simp [send_heartbeat, h]

theorem hb_5xx_eq (now : Int) (a w : String) (idl : Bool) (st : Nat)
    (oracle : Nat → HttpResult) (s : ClientState) (h : 500 ≤ st ∧ st < 600) :
    send_heartbeat now a w idl (.response st) oracle s
      = (.raisedHttp st,
         { s with cache := add_item now "heartbeat" (heartbeatPayload now a w idl) none s.cache },
         [⟨.heartbeat, none⟩]) := by
  have h1 : raisesFor st = true := by simp only [raisesFor]; simp; omega
  have h2 : ¬ st = 401 := by omega
  simp [send_heartbeat, h1, h2, h]

theorem hb_fatal_eq (now : Int) (a w : String) (idl : Bool) (st : Nat)
    (oracle : Nat → HttpResult) (s : ClientState) (h1 : raisesFor st = true)
    (h2 : ¬ (500 ≤ st ∧ st < 600)) :
    send_heartbeat now a w idl (.response st) oracle s
      = (.raisedHttp st, s, [⟨.heartbeat, none⟩]) := by
  by_cases h401 : st = 401
  · subst h401; simp [send_heartbeat, h1]
  · simp [send_heartbeat, h1, h401, h2]

theorem up_rl_eq (now : Int) (dev : String) (img : List Nat) (md : JObj)
    (live : HttpResult) (oracle : Nat → HttpResult) (s : ClientState)
    (h : now - s.lastCaptureTime < minCaptureInterval) :
    upload_screenshot now dev img md live oracle s
      = (.rateLimited (minCaptureInterval - (now - s.lastCaptureTime)), s, []) := by
  simp [upload_screenshot, h]

theorem up_net_eq (now : Int) (dev : String) (img : List Nat) (md : JObj)
    (oracle : Nat → HttpResult) (s : ClientState)
    (hrl : ¬ now - s.lastCaptureTime < minCaptureInterval) :
    upload_screenshot now dev img md .netError oracle s
      = (.cached,
         { s with cache := (add_item now "screenshot" (screenshotData now dev md) (some img) s.cache) },
         [⟨.capture, none⟩]) := by
  simp [upload_screenshot, hrl]

theorem up_accepted_eq (now : Int) (dev : String) (img : List Nat) (md : JObj)
    (st : Nat) (oracle : Nat → HttpResult) (s : ClientState)
    (hrl : ¬ now - s.lastCaptureTime < minCaptureInterval)
    (h : raisesFor st = false) :
    upload_screenshot now dev img md (.response st) oracle s
      = (.ok, (process_pending_uploads oracle { s with lastCaptureTime := now }).1,
         Req.mk .capture none ::
           (process_pending_uploads oracle { s with lastCaptureTime := now }).2) := by
  simp [upload_screenshot, hrl, h]

theorem up_5xx_eq (now : Int) (dev : String) (img : List Nat) (md : JObj)
    (st : Nat) (oracle : Nat → HttpResult) (s : ClientState)
    (hrl : ¬ now - s.lastCaptureTime < minCaptureInterval)
    (h : 500 ≤ st ∧ st < 600) :
    upload_screenshot now dev img md (.response st) oracle s
      = (.raisedHttp st,
         { lastCaptureTime := now,
           cache := (add_item now "screenshot" (screenshotData now dev md) (some img) s.cache) },
         [⟨.capture, none⟩]) := by
  have h1 : raisesFor st = true := by simp only [raisesFor]; simp; omega
  have h401 : ¬ st = 401 := by omega
  have h422 : ¬ st = 422 := by omega
  have h413 : ¬ st = 413 := by omega
  simp [upload_screenshot, hrl, h1, h401, h422, h413, h]

theorem up_401_eq (now : Int) (dev : String) (img : List Nat) (md : JObj)
    (oracle : Nat → HttpResult) (s : ClientState)
    (hrl : ¬ now - s.lastCaptureTime < minCaptureInterval) :
    upload_screenshot now dev img md (.response 401) oracle s
      = (.raisedHttp 401, { s with lastCaptureTime := now }, [⟨.capture, none⟩]) := by
  simp [upload_screenshot, hrl, raisesFor]

theorem up_413_eq (now : Int) (dev : String) (img : List Nat) (md : JObj)
    (oracle : Nat → HttpResult) (s : ClientState)
    (hrl : ¬ now - s.lastCaptureTime < minCaptureInterval) :
    upload_screenshot now dev img md (.response 413) oracle s
      = (.raisedHttp 413, { s with lastCaptureTime := now }, [⟨.capture, none⟩]) := by
  simp [upload_screenshot, hrl, raisesFor]

theorem up_422_eq (now : Int) (dev : String) (img : List Nat) (md : JObj)
    (oracle : Nat → HttpResult) (s : ClientState)
    (hrl : ¬ now - s.lastCaptureTime < minCaptureInterval) :
    upload_screenshot now dev img md (.response 422) oracle s
      = (.resp422, { s with lastCaptureTime := now }, [⟨.capture, none⟩]) := by
  simp [upload_screenshot, hrl, raisesFor]

theorem up_response_lct (now : Int) (dev : String) (img : List Nat) (md : JObj)
    (st : Nat) (oracle : Nat → HttpResult) (s : ClientState)
    (hrl : ¬ now - s.lastCaptureTime < minCaptureInterval) :
    (upload_screenshot now dev img md (.response st) oracle s).2.1.lastCaptureTime
      = now := by
  simp only [upload_screenshot, if_neg hrl]
  split_ifs <;> rfl

/-! ### The replay pass: batch abort machinery -/

def removeList (ids : List Nat) (c : CacheState) : CacheState :=
  ids.foldl (fun c i => remove_item i c) c

theorem removeList_rows : ∀ (ids : List Nat) (c : CacheState),
    (removeList ids c).rows = c.rows.filter (fun r => !(ids.contains r.id)) := by
  intro ids
  induction ids with
  | nil => intro c; simp [removeList]
  | cons i ids ih =>
    intro c
    have h1 : removeList (i :: ids) c = removeList ids (remove_item i c) := rfl
    rw [h1, ih, remove_item, List.filter_filter]
    apply List.filter_congr
    intro r _
    by_cases h : r.id = i <;> simp [h, List.contains_cons, Bool.and_comm]

theorem removeList_nextId : ∀ (ids : List Nat) (c : CacheState),
    (removeList ids c).nextId = c.nextId := by
  intro ids
  induction ids with
  | nil => intro c; rfl
  | cons i ids ih => intro c; exact ih (remove_item i c)

theorem replayLoop_abort (oracle : Nat → HttpResult) :
    ∀ (pre : List PendingItem) (fl : PendingItem) (post : List PendingItem)
      (k : Nat) (c : CacheState),
      (∀ j, j < pre.length → isOk (oracle (k + j)) = true) →
      (∀ it ∈ pre, validTy it.2.1 = true) →
      validTy fl.2.1 = true →
      isOk (oracle (k + pre.length)) = false →
      replayLoop oracle (pre ++ fl :: post) k c
        = (removeList (pre.map (fun it => it.1)) c, (pre ++ [fl]).map mkReq) := by
  intro pre
  induction pre with
  | nil =>
    intro fl post k c hok hv hvf hfail
    have hf : isOk (oracle k) = false := by simpa using hfail
    simp [replayLoop, hvf, hf, removeList]
  | cons it pre ih =>
    intro fl post k c hok hv hvf hfail
    have hvit : validTy it.2.1 = true := hv it (List.mem_cons_self it pre)
    have hokk : isOk (oracle k) = true := by
      have := hok 0 (by simp)
      simpa using this
    have hok2 : ∀ j, j < pre.length → isOk (oracle (k + 1 + j)) = true := by
      intro j hj
      have h := hok (j + 1) (by simp; omega)
      have he : k + (j + 1) = k + 1 + j := by omega
      rw [he] at h
      exact h
    have hfail2 : isOk (oracle (k + 1 + pre.length)) = false := by
      have he : k + (it :: pre).length = k + 1 + pre.length := by simp; omega
      rw [he] at hfail
      exact hfail
    have hv2 : ∀ x ∈ pre, validTy x.2.1 = true :=
      fun x hx => hv x (List.mem_cons_of_mem it hx)
    simp only [List.cons_append, replayLoop, hvit, hokk, if_pos, if_true,
      List.append_eq]
    rw [ih fl post (k + 1) (remove_item it.1 c) hok2 hv2 hvf hfail2]
    simp [removeList]

/-! ### Sequences of queue operations and the monotone-clock invariant -/

/-- One caller-visible mutation of the durable queue. -/
inductive CacheOp where
  | add (now : Int) (item_type : String) (data : JObj) (file_data : Option (List Nat))
  | remove (id : Nat)

def applyOp (s : CacheState) : CacheOp → CacheState
  | .add now ty p fd => add_item now ty p fd s
  | .remove id => remove_item id s

def applyOps (s : CacheState) (ops : List CacheOp) : CacheState := ops.foldl applyOp s

/-- The enqueue timestamps of the operation sequence are nondecreasing and
start no earlier than t: the wall clock read by time.time never runs
backwards across the enqueues. -/
def monoB : Int → List CacheOp → Bool
  | _, [] => true
  | t, .add now _ _ _ :: rest => decide (t ≤ now) && monoB now rest
  | t, .remove _ :: rest => monoB t rest

/-- State invariant of the queue under a monotone clock: rows are in id order,
ids are below the AUTOINCREMENT counter, timestamps are nondecreasing in row
order and bounded by t, and every stored data column is json.dumps output. -/
structure CacheInv (t : Int) (s : CacheState) : Prop where
  idLt : ∀ r ∈ s.rows, r.id < s.nextId
  idSorted : s.rows.Pairwise (fun a b => a.id < b.id)
  tsSorted : s.rows.Pairwise tsLE
  tsBound : ∀ r ∈ s.rows, r.timestamp ≤ t
  dataOk : ∀ r ∈ s.rows, ∃ o, r.data = jsonDumps o

theorem cacheInv_init (t : Int) : CacheInv t cacheInit := by
  refine ⟨?_, ?_, ?_, ?_, ?_⟩ <;> simp [cacheInit]

theorem cacheInv_add (t now : Int) (ty : String) (p : JObj) (fd : Option (List Nat))
    (s : CacheState) (h : CacheInv t s) (hle : t ≤ now) :
    CacheInv now (add_item now ty p fd s) := by
  refine ⟨?_, ?_, ?_, ?_, ?_⟩
  · intro r hr
    rcases List.mem_append.mp hr with hr1 | hr2
    · have := h.idLt r hr1
      simp only [add_item]
      omega
    · simp only [List.mem_singleton] at hr2
      subst hr2
      simp [add_item]
  · simp only [add_item]
    rw [List.pairwise_append]
    refine ⟨h.idSorted, by simp, ?_⟩
    intro a ha b hb
    simp only [List.mem_singleton] at hb
    subst hb
    exact h.idLt a ha
  · simp only [add_item]
    rw [List.pairwise_append]
    refine ⟨h.tsSorted, by simp, ?_⟩
    intro a ha b hb
    simp only [List.mem_singleton] at hb
    subst hb
    show a.timestamp ≤ now
    have := h.tsBound a ha
    omega
  · intro r hr
    rcases List.mem_append.mp hr with hr1 | hr2
    · have := h.tsBound r hr1
      omega
    · simp only [List.mem_singleton] at hr2
      subst hr2
      simp
  · intro r hr
    rcases List.mem_append.mp hr with hr1 | hr2
    · exact h.dataOk r hr1
    · simp only [List.mem_singleton] at hr2
      subst hr2
      exact ⟨p, rfl⟩

theorem cacheInv_remove (t : Int) (id : Nat) (s : CacheState) (h : CacheInv t s) :
    CacheInv t (remove_item id s) := by
  have hsub : (s.rows.filter (fun r => r.id != id)).Sublist s.rows :=
    List.filter_sublist s.rows
  refine ⟨?_, ?_, ?_, ?_, ?_⟩
  · intro r hr
    exact h.idLt r (hsub.mem hr)
  · exact h.idSorted.sublist hsub
  · exact h.tsSorted.sublist hsub
  · intro r hr
    exact h.tsBound r (hsub.mem hr)
  · intro r hr
    exact h.dataOk r (hsub.mem hr)

theorem cacheInv_applyOps : ∀ (ops : List CacheOp) (t : Int) (s : CacheState),
    CacheInv t s → monoB t ops = true →
    ∃ t2, t ≤ t2 ∧ CacheInv t2 (applyOps s ops) := by
  intro ops
  induction ops with
  | nil => intro t s h _; exact ⟨t, le_refl t, h⟩
  | cons op rest ih =>
    intro t s h hmono
    cases op with
    | add now ty p fd =>
      simp only [monoB, Bool.and_eq_true, decide_eq_true_eq] at hmono
      obtain ⟨t2, h2, hinv⟩ :=
        ih now (add_item now ty p fd s) (cacheInv_add t now ty p fd s h hmono.1) hmono.2
      exact ⟨t2, by omega, hinv⟩
    | remove id =>
      simp only [monoB] at hmono
      obtain ⟨t2, h2, hinv⟩ := ih t (remove_item id s) (cacheInv_remove t id s h) hmono
      exact ⟨t2, h2, hinv⟩

/-! ### Reads under the invariant -/

theorem filterMap_decodeRow_ids (l : List Row)
    (h : ∀ r ∈ l, ∃ o, r.data = jsonDumps o) :
    (l.filterMap decodeRow).map (fun it => it.1) = l.map (fun r => r.id) := by
  induction l with
  | nil => rfl
  | cons r rs ih =>
    obtain ⟨o, ho⟩ := h r (List.mem_cons_self r rs)
    have hd : decodeRow r = some (r.id, r.ty, o, r.file_data) := by
      simp [decodeRow, ho, jsonLoads_jsonDumps]
    rw [List.filterMap_cons_some hd]
    simp only [List.map_cons]
    rw [ih (fun x hx => h x (List.mem_cons_of_mem r hx))]

theorem get_pending_items_inv (t : Int) (s : CacheState) (n : Nat)
    (h : CacheInv t s) :
    (get_pending_items n s).map (fun it => it.1)
        = (s.rows.map (fun r => r.id)).take n
    ∧ ((get_pending_items n s).map (fun it => it.1)).Pairwise (fun a b => a < b) := by
  have hsorted : s.rows.insertionSort tsLE = s.rows :=
    List.Sorted.insertionSort_eq h.tsSorted
  have hids : (get_pending_items n s).map (fun it => it.1)
      = (s.rows.map (fun r => r.id)).take n := by
    rw [get_pending_items, hsorted,
      filterMap_decodeRow_ids (s.rows.take n)
        (fun r hr => h.dataOk r (List.take_subset n s.rows hr)),
      List.map_take]
  refine ⟨hids, ?_⟩
  rw [hids]
  have hm : (s.rows.map (fun r => r.id)).Pairwise (fun a b => a < b) :=
    List.pairwise_map.mpr h.idSorted
  exact hm.sublist (List.take_sublist n _)

theorem filterMap_decodeRow_length (l : List Row)
    (h : ∀ r ∈ l, (jsonLoads r.data).isSome = true) :
    (l.filterMap decodeRow).length = l.length := by
  induction l with
  | nil => rfl
  | cons r rs ih =>
    obtain ⟨o, ho⟩ := Option.isSome_iff_exists.mp (h r (List.mem_cons_self r rs))
    have hd : decodeRow r = some (r.id, r.ty, o, r.file_data) := by
      simp [decodeRow, ho]
    rw [List.filterMap_cons_some hd]
    simp only [List.length_cons]
    rw [ih (fun x hx => h x (List.mem_cons_of_mem r hx))]

/-- An item produced by a batch read comes from a stored row with the same id. -/
theorem mem_get_pending_items (s : CacheState) (limit : Nat) (it : PendingItem)
    (h : it ∈ get_pending_items limit s) :
    ∃ r ∈ s.rows, r.id = it.1 := by
  rw [get_pending_items] at h
  obtain ⟨r, hr, hd⟩ := List.mem_filterMap.mp h
  have hr2 : r ∈ s.rows.insertionSort tsLE := List.take_subset limit _ hr
  have hr3 : r ∈ s.rows := (List.mem_insertionSort tsLE).mp hr2
  refine ⟨r, hr3, ?_⟩
  simp only [decodeRow] at hd
  obtain ⟨o, _, ho2⟩ := Option.map_eq_some'.mp hd
  rw [← ho2]

/-! ## Concrete fixtures used by counterexamples and witnesses -/

def demoPayload : JObj := [("app_name", JVal.str "editor")]

/-- A transport oracle for which every replayed request succeeds. -/
def orcOK : Nat → HttpResult := fun _ => .response 200

/-- A fresh client whose queue already holds one replayable heartbeat row. -/
def s0 : ClientState := ⟨0, add_item 0 "heartbeat" demoPayload none cacheInit⟩

/-- A fresh client with an empty queue and a nonzero rate-limit clock. -/
def s7 : ClientState := ⟨7, cacheInit⟩

/-! ## Claim C1 -/

/-- Claim C1 states that the replay step runs after transient live outcomes
exactly as it does after Accepted ones.  This is false on the code: with one
replayable event queued and a healthy replay oracle, a live HTTP 503 heartbeat
makes exactly one outbound request and leaves the queued row (id 1) in place
next to the newly enqueued row (id 2), while the same call with a 200 response
makes the replay request for row 1 and empties the queue. -/
theorem C1_counterexample :
    (send_heartbeat 100 "a" "w" false (.response 503) orcOK s0).2.2
        = [⟨.heartbeat, none⟩]
    ∧ ((send_heartbeat 100 "a" "w" false (.response 503) orcOK s0).2.1.cache.rows.map
        (fun r => r.id)) = [1, 2]
    ∧ (send_heartbeat 100 "a" "w" false (.response 200) orcOK s0).2.2
        = [⟨.heartbeat, none⟩, ⟨.heartbeat, some 1⟩]
    ∧ ((send_heartbeat 100 "a" "w" false (.response 200) orcOK s0).2.1.cache.rows.map
        (fun r => r.id)) = [] := by decide

/-- Claim C1 amended: the replay step (process_pending_uploads) is invoked
only after an Accepted live outcome.  After a transient outcome
(ServerUnavailable 5xx or NetworkFailure) the call makes exactly the one live
request, for send_heartbeat and for upload_screenshot alike. -/
theorem C1_replay_only_after_accepted (now : Int) (a w : String) (idl : Bool)
    (st : Nat) (oracle : Nat → HttpResult) (s : ClientState) (dev : String)
    (img : List Nat) (md : JObj) :
    (raisesFor st = false →
      send_heartbeat now a w idl (.response st) oracle s
        = (.ok, (process_pending_uploads oracle s).1,
           Req.mk .heartbeat none :: (process_pending_uploads oracle s).2))
    ∧ (500 ≤ st ∧ st < 600 →
        (send_heartbeat now a w idl (.response st) oracle s).2.2
          = [⟨.heartbeat, none⟩])
    ∧ (send_heartbeat now a w idl .netError oracle s).2.2 = [⟨.heartbeat, none⟩]
    ∧ (¬ now - s.lastCaptureTime < minCaptureInterval →
        (raisesFor st = false →
          upload_screenshot now dev img md (.response st) oracle s
            = (.ok,
               (process_pending_uploads oracle { s with lastCaptureTime := now }).1,
               Req.mk .capture none ::
                 (process_pending_uploads oracle { s with lastCaptureTime := now }).2))
        ∧ (500 ≤ st ∧ st < 600 →
            (upload_screenshot now dev img md (.response st) oracle s).2.2
              = [⟨.capture, none⟩])
        ∧ (upload_screenshot now dev img md .netError oracle s).2.2
            = [⟨.capture, none⟩]) := by
  refine ⟨?_, ?_, ?_, ?_⟩
  · intro h
    exact hb_accepted_eq now a w idl st oracle s h
  · intro h
    rw [hb_5xx_eq now a w idl st oracle s h]
  · rw [hb_net_eq]
  · intro hrl
    refine ⟨?_, ?_, ?_⟩
    · intro h
      exact up_accepted_eq now dev img md st oracle s hrl h
    · intro h
      rw [up_5xx_eq now dev img md st oracle s hrl h]
    · rw [up_net_eq now dev img md oracle s hrl]

/-- Witness for C1 amended at concrete inputs. -/
theorem C1_replay_only_after_accepted_witness :
    ((500 ≤ 503 ∧ 503 < 600)
      ∧ ¬ (100 : Int) - s0.lastCaptureTime < minCaptureInterval)
    ∧ (send_heartbeat 100 "a" "w" false (.response 503) orcOK s0).2.2
        = [⟨.heartbeat, none⟩]
    ∧ (upload_screenshot 100 "d" [1] [] (.response 503) orcOK s0).2.2
        = [⟨.capture, none⟩]
    ∧ (send_heartbeat 100 "a" "w" false .netError orcOK s0).2.2
        = [⟨.heartbeat, none⟩] :=
  ⟨⟨by decide, by decide⟩,
   (C1_replay_only_after_accepted 100 "a" "w" false 503 orcOK s0 "d" [1] []).2.1
     (by decide),
   ((C1_replay_only_after_accepted 100 "a" "w" false 503 orcOK s0 "d" [1] []).2.2.2
     (by decide)).2.1 (by decide),
   (C1_replay_only_after_accepted 100 "a" "w" false 503 orcOK s0 "d" [1] []).2.2.1⟩

/-! ## Claim C2 -/

/-- Claim C2 states that both transient outcomes return a Queued result with
no propagated exception.  False on the code: a 5xx (ServerUnavailable)
heartbeat caches the event and then re-raises the HTTPError, so the caller
sees a propagated exception, not the cached-dictionary return. -/
theorem C2_counterexample :
    (send_heartbeat 100 "a" "w" false (.response 500) orcOK s0).1 = .raisedHttp 500
    ∧ SendResult.raisedHttp 500 ≠ .cached := by decide

/-- Claim C2 amended: only NetworkFailure is absorbed into the Queued
(cached) result; a ServerUnavailable (5xx) outcome enqueues the event but
propagates the HTTPError to the caller, for both operations. -/
theorem C2_transient_handling (now : Int) (a w : String) (idl : Bool) (st : Nat)
    (oracle : Nat → HttpResult) (s : ClientState) (dev : String)
    (img : List Nat) (md : JObj) :
    (send_heartbeat now a w idl .netError oracle s).1 = .cached
    ∧ (500 ≤ st ∧ st < 600 →
        (send_heartbeat now a w idl (.response st) oracle s).1 = .raisedHttp st
        ∧ (send_heartbeat now a w idl (.response st) oracle s).2.1.cache
            = add_item now "heartbeat" (heartbeatPayload now a w idl) none s.cache)
    ∧ (¬ now - s.lastCaptureTime < minCaptureInterval →
        (upload_screenshot now dev img md .netError oracle s).1 = .cached
        ∧ (500 ≤ st ∧ st < 600 →
            (upload_screenshot now dev img md (.response st) oracle s).1
              = .raisedHttp st
            ∧ (upload_screenshot now dev img md (.response st) oracle s).2.1.cache
                = add_item now "screenshot" (screenshotData now dev md)
                    (some img) s.cache)) := by
  refine ⟨?_, ?_, ?_⟩
  · rw [hb_net_eq]
  · intro h
    rw [hb_5xx_eq now a w idl st oracle s h]
    exact ⟨rfl, rfl⟩
  · intro hrl
    refine ⟨?_, ?_⟩
    · rw [up_net_eq now dev img md oracle s hrl]
    · intro h
      rw [up_5xx_eq now dev img md st oracle s hrl h]
      exact ⟨rfl, rfl⟩

/-- Witness for C2 amended at concrete inputs. -/
theorem C2_transient_handling_witness :
    ((500 ≤ 503 ∧ 503 < 600)
      ∧ ¬ (100 : Int) - s0.lastCaptureTime < minCaptureInterval)
    ∧ (send_heartbeat 100 "a" "w" false .netError orcOK s0).1 = .cached
    ∧ (send_heartbeat 100 "a" "w" false (.response 503) orcOK s0).1 = .raisedHttp 503
    ∧ (upload_screenshot 100 "d" [1] [] .netError orcOK s0).1 = .cached :=
  ⟨⟨by decide, by decide⟩,
   (C2_transient_handling 100 "a" "w" false 503 orcOK s0 "d" [1] []).1,
   ((C2_transient_handling 100 "a" "w" false 503 orcOK s0 "d" [1] []).2.1
     (by decide)).1,
   ((C2_transient_handling 100 "a" "w" false 503 orcOK s0 "d" [1] []).2.2
     (by decide)).1⟩

/-! ## Claim C3 -/

/-- A queue state produced by two enqueues whose wall-clock readings ran
backwards: the first at time 10 (id 1), the second at time 5 (id 2). -/
def sBad : CacheState :=
  add_item 5 "heartbeat" demoPayload none
    (add_item 10 "heartbeat" demoPayload none cacheInit)

/-- Claim C3 states that dequeue_batch always returns events in strictly
ascending id order.  False on the code: the SELECT orders by the timestamp
column, not by id, so after two enqueues with a backwards-running clock the
batch comes back with ids 2 before 1, which is not ascending. -/
theorem C3_counterexample :
    ((get_pending_items 2 sBad).map (fun it => it.1)) = [2, 1]
    ∧ ¬ ((2 : Nat) < 1) := by decide

/-- Claim C3 amended: for any sequence of enqueues and removes in which the
enqueue timestamps are nondecreasing (monotone clock), dequeue_batch returns
the n oldest surviving events, in strictly ascending id order.  The read is a
pure SELECT: the model state is not modified by get_pending_items. -/
theorem C3_fifo_under_monotone_clock (ops : List CacheOp) (n : Nat)
    (hmono : monoB 0 ops = true) :
    ((get_pending_items n (applyOps cacheInit ops)).map (fun it => it.1)
        = ((applyOps cacheInit ops).rows.map (fun r => r.id)).take n)
    ∧ ((get_pending_items n (applyOps cacheInit ops)).map (fun it => it.1)).Pairwise
        (fun a b => a < b) := by
  obtain ⟨t2, _, hinv⟩ := cacheInv_applyOps ops 0 cacheInit (cacheInv_init 0) hmono
  exact get_pending_items_inv t2 _ n hinv

def demoOps : List CacheOp :=
  [.add 1 "heartbeat" demoPayload none, .add 2 "heartbeat" demoPayload none,
   .remove 1, .add 3 "screenshot" [("k", JVal.str "v")] (some [1, 2])]

/-- Witness for C3 amended at a concrete operation sequence. -/
theorem C3_fifo_under_monotone_clock_witness :
    monoB 0 demoOps = true
    ∧ ((get_pending_items 2 (applyOps cacheInit demoOps)).map (fun it => it.1)
        = ((applyOps cacheInit demoOps).rows.map (fun r => r.id)).take 2)
    ∧ ((get_pending_items 2 (applyOps cacheInit demoOps)).map
        (fun it => it.1)).Pairwise (fun a b => a < b) :=
  ⟨by decide, (C3_fifo_under_monotone_clock demoOps 2 (by decide)).1,
   (C3_fifo_under_monotone_clock demoOps 2 (by decide)).2⟩

/-! ## Claim C4 -/

/-- Claim C4 states that last_capture_time is updated regardless of the
outcome, including NetworkFailure.  False on the code: the assignment sits
after session.post returns, so a connection-level failure skips it; here the
clock value stays 7 instead of becoming 100. -/
theorem C4_counterexample :
    (upload_screenshot 100 "d" [1] [] .netError orcOK s7).2.1.lastCaptureTime = 7
    ∧ (7 : Int) ≠ 100 := by decide

/-- Claim C4 amended: for an upload that passes the rate limiter,
last_capture_time is set to now whenever a response with a status code is
obtained (any status), but keeps its previous value when the request fails at
the connection/timeout level before a status code (NetworkFailure). -/
theorem C4_lct_only_on_response (now : Int) (dev : String) (img : List Nat)
    (md : JObj) (st : Nat) (oracle : Nat → HttpResult) (s : ClientState)
    (hrl : ¬ now - s.lastCaptureTime < minCaptureInterval) :
    (upload_screenshot now dev img md (.response st) oracle s).2.1.lastCaptureTime
        = now
    ∧ (upload_screenshot now dev img md .netError oracle s).2.1.lastCaptureTime
        = s.lastCaptureTime := by
  refine ⟨up_response_lct now dev img md st oracle s hrl, ?_⟩
  rw [up_net_eq now dev img md oracle s hrl]

/-- Witness for C4 amended at concrete inputs. -/
theorem C4_lct_only_on_response_witness :
    (¬ (100 : Int) - s0.lastCaptureTime < minCaptureInterval)
    ∧ (upload_screenshot 100 "d" [1] [] (.response 500) orcOK s0).2.1.lastCaptureTime
        = 100
    ∧ (upload_screenshot 100 "d" [1] [] .netError orcOK s0).2.1.lastCaptureTime
        = s0.lastCaptureTime :=
  ⟨by decide,
   (C4_lct_only_on_response 100 "d" [1] [] 500 orcOK s0 (by decide)).1,
   (C4_lct_only_on_response 100 "d" [1] [] 500 orcOK s0 (by decide)).2⟩

/-! ## Claim C5 -/

/-- Claim C5: during one replay pass over a dequeued batch, if every event
before position i succeeds and the event at position i fails, then exactly
the events before position i are removed from the queue (everything else is
untouched), exactly the first i plus one requests are made, and the failing
event and all later batch events are still present in the queue. -/
theorem C5_batch_abort (oracle : Nat → HttpResult) (pre : List PendingItem)
    (fl : PendingItem) (post : List PendingItem) (s : ClientState)
    (hbatch : get_pending_items 5 s.cache = pre ++ fl :: post)
    (hok : ∀ j, j < pre.length → isOk (oracle j) = true)
    (hv : ∀ it ∈ pre, validTy it.2.1 = true)
    (hvf : validTy fl.2.1 = true)
    (hfail : isOk (oracle pre.length) = false)
    (hdist : ∀ it ∈ fl :: post, (pre.map (fun x => x.1)).contains it.1 = false) :
    (process_pending_uploads oracle s).1.cache.rows
        = s.cache.rows.filter (fun r => !((pre.map (fun x => x.1)).contains r.id))
    ∧ (process_pending_uploads oracle s).1.lastCaptureTime = s.lastCaptureTime
    ∧ (process_pending_uploads oracle s).2 = (pre ++ [fl]).map mkReq
    ∧ ∀ it ∈ fl :: post,
        ∃ r ∈ (process_pending_uploads oracle s).1.cache.rows, r.id = it.1 := by
  have hok0 : ∀ j, j < pre.length → isOk (oracle (0 + j)) = true := by
    intro j hj
    rw [Nat.zero_add]
    exact hok j hj
  have hfail0 : isOk (oracle (0 + pre.length)) = false := by
    rw [Nat.zero_add]
    exact hfail
  have hrep := replayLoop_abort oracle pre fl post 0 s.cache hok0 hv hvf hfail0
  have hppu : process_pending_uploads oracle s
      = ({ s with cache := removeList (pre.map (fun it => it.1)) s.cache },
         (pre ++ [fl]).map mkReq) := by
    unfold process_pending_uploads
    rw [hbatch, hrep]
  refine ⟨?_, ?_, ?_, ?_⟩
  · rw [hppu]
    exact removeList_rows (pre.map (fun it => it.1)) s.cache
  · rw [hppu]
  · rw [hppu]
  · intro it hit
    have hitmem : it ∈ get_pending_items 5 s.cache := by
      rw [hbatch]
      exact List.mem_append_right pre hit
    obtain ⟨r, hr, hrid⟩ := mem_get_pending_items s.cache 5 it hitmem
    refine ⟨r, ?_, hrid⟩
    rw [hppu]
    show r ∈ (removeList (pre.map (fun it => it.1)) s.cache).rows
    rw [removeList_rows]
    refine List.mem_filter.mpr ⟨hr, ?_⟩
    rw [hrid, hdist it hit]
    rfl

def orc2fail : Nat → HttpResult := fun i => if i = 1 then .response 500 else .response 200

def c5cache : CacheState :=
  add_item 5 "heartbeat" demoPayload none
    (add_item 4 "heartbeat" demoPayload none
      (add_item 3 "heartbeat" demoPayload none
        (add_item 2 "heartbeat" demoPayload none
          (add_item 1 "heartbeat" demoPayload none cacheInit))))

def c5state : ClientState := ⟨0, c5cache⟩

def itA : PendingItem := (1, "heartbeat", demoPayload, none)

def itB : PendingItem := (2, "heartbeat", demoPayload, none)

def itC : PendingItem := (3, "heartbeat", demoPayload, none)

def itD : PendingItem := (4, "heartbeat", demoPayload, none)

def itE : PendingItem := (5, "heartbeat", demoPayload, none)

/-- Witness for C5: five queued events, the second replay request fails. -/
theorem C5_batch_abort_witness :
    (process_pending_uploads orc2fail c5state).1.cache.rows
        = c5state.cache.rows.filter
            (fun r => !(([itA].map (fun x => x.1)).contains r.id))
    ∧ (process_pending_uploads orc2fail c5state).1.lastCaptureTime
        = c5state.lastCaptureTime
    ∧ (process_pending_uploads orc2fail c5state).2 = ([itA] ++ [itB]).map mkReq
    ∧ ∀ it ∈ itB :: [itC, itD, itE],
        ∃ r ∈ (process_pending_uploads orc2fail c5state).1.cache.rows,
          r.id = it.1 :=
  C5_batch_abort orc2fail [itA] itB [itC, itD, itE] c5state (by decide) (by decide)
    (by decide) (by decide) (by decide) (by decide)

/-! ## Claim C6 -/

/-- Claim C6: an upload_screenshot call made while the elapsed time since
last_capture_time is below the minimum interval returns RateLimited with
remaining equal to interval minus elapsed, makes no transport request, and
changes nothing. -/
theorem C6_rate_limited (now : Int) (dev : String) (img : List Nat) (md : JObj)
    (live : HttpResult) (oracle : Nat → HttpResult) (s : ClientState)
    (h : now - s.lastCaptureTime < minCaptureInterval) :
    upload_screenshot now dev img md live oracle s
      = (.rateLimited (minCaptureInterval - (now - s.lastCaptureTime)), s, []) :=
  up_rl_eq now dev img md live oracle s h

/-- Witness for C6 at concrete inputs: elapsed 3 of 30, remaining 27. -/
theorem C6_rate_limited_witness :
    ((10 : Int) - s7.lastCaptureTime < minCaptureInterval)
    ∧ upload_screenshot 10 "d" [1] [] (.response 200) orcOK s7
        = (.rateLimited (minCaptureInterval - ((10 : Int) - s7.lastCaptureTime)),
           s7, []) :=
  ⟨by decide, C6_rate_limited 10 "d" [1] [] (.response 200) orcOK s7 (by decide)⟩

/-! ## Claim C7 -/

/-- Claim C7: enqueue followed by dequeue_batch returns a record whose kind,
payload and attachment are identical to what was enqueued; in particular the
json.dumps/json.loads trip through the data column is lossless. -/
theorem C7_roundtrip (now : Int) (ty : String) (payload : JObj)
    (fd : Option (List Nat)) :
    get_pending_items 1 (add_item now ty payload fd cacheInit)
      = [(1, ty, payload, fd)] := by
  simp [get_pending_items, add_item, cacheInit, List.insertionSort,
    List.orderedInsert, decodeRow, jsonLoads_jsonDumps]

/-! ## Claim C8 -/

/-- Claim C8: a live outcome of AuthInvalid (401) or PayloadTooLarge (413)
is surfaced to the caller as the propagated HTTPError and the event is not
enqueued; the queue part of the state is exactly what it was before. -/
theorem C8_fatal_never_persists (now : Int) (a w : String) (idl : Bool)
    (oracle : Nat → HttpResult) (s : ClientState) (dev : String)
    (img : List Nat) (md : JObj) :
    send_heartbeat now a w idl (.response 401) oracle s
        = (.raisedHttp 401, s, [⟨.heartbeat, none⟩])
    ∧ send_heartbeat now a w idl (.response 413) oracle s
        = (.raisedHttp 413, s, [⟨.heartbeat, none⟩])
    ∧ (¬ now - s.lastCaptureTime < minCaptureInterval →
        upload_screenshot now dev img md (.response 401) oracle s
          = (.raisedHttp 401, { s with lastCaptureTime := now }, [⟨.capture, none⟩])
        ∧ upload_screenshot now dev img md (.response 413) oracle s
          = (.raisedHttp 413, { s with lastCaptureTime := now },
             [⟨.capture, none⟩])) := by
  refine ⟨?_, ?_, ?_⟩
  · exact hb_fatal_eq now a w idl 401 oracle s (by decide) (by omega)
  · exact hb_fatal_eq now a w idl 413 oracle s (by decide) (by omega)
  · intro hrl
    exact ⟨up_401_eq now dev img md oracle s hrl, up_413_eq now dev img md oracle s hrl⟩

/-- Witness for C8 at concrete inputs. -/
theorem C8_fatal_never_persists_witness :
    (¬ (100 : Int) - s0.lastCaptureTime < minCaptureInterval)
    ∧ send_heartbeat 100 "a" "w" false (.response 401) orcOK s0
        = (.raisedHttp 401, s0, [⟨.heartbeat, none⟩])
    ∧ upload_screenshot 100 "d" [1] [] (.response 413) orcOK s0
        = (.raisedHttp 413, { s0 with lastCaptureTime := 100 },
           [⟨.capture, none⟩]) :=
  ⟨by decide,
   (C8_fatal_never_persists 100 "a" "w" false orcOK s0 "d" [1] []).1,
   ((C8_fatal_never_persists 100 "a" "w" false orcOK s0 "d" [1] []).2.2
     (by decide)).2⟩

/-! ## Claim C9 -/

/-- Claim C9: a corrupt record inside a dequeued batch is skipped and the
batch read still returns every remaining well-formed record of the batch, in
order, without aborting or raising. -/
theorem C9_corrupt_row_skipped (s : CacheState) (limit : Nat)
    (pre post : List Row) (bad : Row)
    (hbatch : (s.rows.insertionSort tsLE).take limit = pre ++ bad :: post)
    (hbad : jsonLoads bad.data = none)
    (hwf : ∀ r ∈ pre ++ post, (jsonLoads r.data).isSome = true) :
    get_pending_items limit s = pre.filterMap decodeRow ++ post.filterMap decodeRow
    ∧ (get_pending_items limit s).length = pre.length + post.length := by
  have hdbad : decodeRow bad = none := by simp [decodeRow, hbad]
  have h1 : get_pending_items limit s
      = pre.filterMap decodeRow ++ post.filterMap decodeRow := by
    rw [get_pending_items, hbatch, List.filterMap_append,
      List.filterMap_cons_none hdbad]
  refine ⟨h1, ?_⟩
  rw [h1, List.length_append,
    filterMap_decodeRow_length pre (fun r hr => hwf r (List.mem_append_left post hr)),
    filterMap_decodeRow_length post (fun r hr => hwf r (List.mem_append_right pre hr))]

def rowGood1 : Row := ⟨1, 1, "heartbeat", jsonDumps demoPayload, none⟩

def rowBad : Row := ⟨2, 2, "heartbeat", ['x', 'y', 'z'], none⟩

def rowGood3 : Row := ⟨3, 3, "screenshot", jsonDumps [("k", JVal.str "v")], some [9]⟩

def corruptCache : CacheState := ⟨4, [rowGood1, rowBad, rowGood3]⟩

/-- Witness for C9: a batch of three rows whose middle row is corrupt. -/
theorem C9_corrupt_row_skipped_witness :
    get_pending_items 5 corruptCache
        = [rowGood1].filterMap decodeRow ++ [rowGood3].filterMap decodeRow
    ∧ (get_pending_items 5 corruptCache).length
        = [rowGood1].length + [rowGood3].length :=
  C9_corrupt_row_skipped corruptCache 5 [rowGood1] [rowGood3] rowBad (by decide)
    (by decide) (by decide)

/-! ## Claim C10 -/

/-- Claim C10: an upload_screenshot call rejected by the rate limiter leaves
the whole client state unchanged (last_capture_time keeps its previous value
and the durable queue is untouched) and makes no transport request. -/
theorem C10_rate_limited_frame (now : Int) (dev : String) (img : List Nat)
    (md : JObj) (live : HttpResult) (oracle : Nat → HttpResult) (s : ClientState)
    (h : now - s.lastCaptureTime < minCaptureInterval) :
    (upload_screenshot now dev img md live oracle s).2.1 = s
    ∧ (upload_screenshot now dev img md live oracle s).2.2 = [] := by
  rw [up_rl_eq now dev img md live oracle s h]
  exact ⟨rfl, rfl⟩

/-- Witness for C10 at concrete inputs. -/
theorem C10_rate_limited_frame_witness :
    ((20 : Int) - s7.lastCaptureTime < minCaptureInterval)
    ∧ (upload_screenshot 20 "d" [1, 2] [] .netError orcOK s7).2.1 = s7
    ∧ (upload_screenshot 20 "d" [1, 2] [] .netError orcOK s7).2.2 = [] :=
  ⟨by decide,
   (C10_rate_limited_frame 20 "d" [1, 2] [] .netError orcOK s7 (by decide)).1,
   (C10_rate_limited_frame 20 "d" [1, 2] [] .netError orcOK s7 (by decide)).2⟩

end PhoenixSpec
